import Mathlib

/-!
Verification development for a terminal chess rule engine (single C++ source
file).  The board is an 8x8 grid of byte-encoded pieces: bits 0-2 hold the
piece kind, bits 3-4 the color.  All engine functions below are direct
translations of the corresponding C++ member functions of `ChessBoard`;
the in-place simulate-and-restore functions are modelled by explicit state
passing (each returns its result together with the board it leaves behind).
-/

set_option maxRecDepth 100000

/-- Bit mask extracting the piece kind (bits 0-2). -/
def typeMask : Nat := 7

/-- Bit mask extracting the color (bits 3-4). -/
def colorMask : Nat := 24

namespace Piece

def None : Nat := 0

def Pawn : Nat := 1

def Knight : Nat := 2

def Bishop : Nat := 3

def Rook : Nat := 4

def Queen : Nat := 5

def King : Nat := 6

def White : Nat := 8

def Black : Nat := 16

end Piece

/-- Return type of the game-state classification. -/
inductive GameState where
  | Playing
  | Check
  | Checkmate
  | Stalemate
deriving DecidableEq

/-- The 8x8 board: a cell value per (row, column). -/
abbrev Board := Fin 8 → Fin 8 → Nat

/-- In-range test for signed coordinates, as used by the C++ bounds guards. -/
abbrev inRange (r c : Int) : Prop := 0 ≤ r ∧ r < 8 ∧ 0 ≤ c ∧ c < 8

/-- Read a cell at signed coordinates; every C++ access through this helper
is guarded by the same bounds test, so the out-of-range default is inert. -/
def getI (b : Board) (r c : Int) : Nat :=
  if h : inRange r c then
    b ⟨r.toNat, by obtain ⟨h1, h2, h3, h4⟩ := h; omega⟩
      ⟨c.toNat, by obtain ⟨h1, h2, h3, h4⟩ := h; omega⟩
  else 0

/-- Write a single cell. -/
def setB (b : Board) (r c : Fin 8) (v : Nat) : Board :=
  fun i j => if i = r ∧ j = c then v else b i j

/-- Piece kind on the back rank, by column (Rook Knight Bishop Queen King
Bishop Knight Rook). -/
def backRankType (c : Fin 8) : Nat :=
  match (c : Nat) with
  | 0 => Piece.Rook
  | 1 => Piece.Knight
  | 2 => Piece.Bishop
  | 3 => Piece.Queen
  | 4 => Piece.King
  | 5 => Piece.Bishop
  | 6 => Piece.Knight
  | _ => Piece.Rook

/-- The starting position built by the `ChessBoard` constructor via
`setTop` (rows 0-1, Black), `setMiddle` (rows 2-5, empty) and `setBottom`
(rows 6-7, White). -/
def initBoard : Board := fun r c =>
  match (r : Nat) with
  | 0 => backRankType c ||| Piece.Black
  | 1 => Piece.Pawn ||| Piece.Black
  | 6 => Piece.Pawn ||| Piece.White
  | 7 => backRankType c ||| Piece.White
  | _ => Piece.None

/-- A board with no pieces at all (no King of either color). -/
def emptyBoard : Board := fun _ _ => Piece.None

/-- Test used by each bounded offset probe of `isSquareAttacked`: the cell
at the given coordinates is in range and holds a piece of kind `t` and color
`attackerColor`. -/
def attackerAt (b : Board) (r c : Int) (attackerColor t : Nat) : Bool :=
  decide (inRange r c) && (getI b r c &&& typeMask == t)
    && (getI b r c &&& colorMask == attackerColor)

/-- The eight knight offsets probed by step 1 of `isSquareAttacked`. -/
def knightOffsets : List (Int × Int) :=
  [(-2, -1), (-2, 1), (-1, -2), (-1, 2), (1, -2), (1, 2), (2, -1), (2, 1)]

/-- The four orthogonal ray directions of step 2 of `isSquareAttacked`. -/
def straightDirs : List (Int × Int) := [(-1, 0), (1, 0), (0, -1), (0, 1)]

/-- The four diagonal ray directions of step 3 of `isSquareAttacked`. -/
def diagDirs : List (Int × Int) := [(-1, -1), (-1, 1), (1, -1), (1, 1)]

/-- The eight adjacent offsets probed by step 5 of `isSquareAttacked`. -/
def kingOffsets : List (Int × Int) :=
  [(-1, -1), (-1, 0), (-1, 1), (0, -1), (0, 1), (1, -1), (1, 0), (1, 1)]

/-- Step 1 of `isSquareAttacked`: an enemy Knight on a knight offset. -/
def knightAttack (b : Board) (r c : Int) (attackerColor : Nat) : Bool :=
  knightOffsets.any fun m => attackerAt b (r + m.1) (c + m.2) attackerColor Piece.Knight

/-- One sliding ray scan of `isSquareAttacked`: walk outward from distance
`dist` with `fuel` steps remaining (the C++ loop runs `dist` from 1 to 7);
the first occupied in-range square decides, going out of range stops. -/
def rayScanAux (b : Board) (a k1 k2 : Nat) (r c dr dc : Int) : Nat → Nat → Bool
  | _, 0 => false
  | dist, fuel + 1 =>
    let nr := r + dr * (dist : Int)
    let nc := c + dc * (dist : Int)
    if inRange nr nc then
      if getI b nr nc ≠ 0 then
        decide ((getI b nr nc &&& colorMask) = a ∧
          ((getI b nr nc &&& typeMask) = k1 ∨ (getI b nr nc &&& typeMask) = k2))
      else rayScanAux b a k1 k2 r c dr dc (dist + 1) fuel
    else false

/-- Step 2 of `isSquareAttacked`: Rook or Queen on an orthogonal ray. -/
def straightAttack (b : Board) (r c : Int) (attackerColor : Nat) : Bool :=
  straightDirs.any fun d =>
    rayScanAux b attackerColor Piece.Rook Piece.Queen r c d.1 d.2 1 7

/-- Step 3 of `isSquareAttacked`: Bishop or Queen on a diagonal ray. -/
def diagAttack (b : Board) (r c : Int) (attackerColor : Nat) : Bool :=
  diagDirs.any fun d =>
    rayScanAux b attackerColor Piece.Bishop Piece.Queen r c d.1 d.2 1 7

/-- Step 4 of `isSquareAttacked`: a pawn of `attackerColor` on one of the
two squares it could capture from (row offset +1 for a White attacker,
-1 for a Black attacker; column offset plus or minus one). -/
def pawnAttack (b : Board) (r c : Int) (attackerColor : Nat) : Bool :=
  let pawnRowDir : Int := if attackerColor == Piece.White then 1 else -1
  [(pawnRowDir, (-1 : Int)), (pawnRowDir, (1 : Int))].any fun m =>
    attackerAt b (r + m.1) (c + m.2) attackerColor Piece.Pawn

/-- Step 5 of `isSquareAttacked`: an enemy King on an adjacent square. -/
def kingAttack (b : Board) (r c : Int) (attackerColor : Nat) : Bool :=
  kingOffsets.any fun m => attackerAt b (r + m.1) (c + m.2) attackerColor Piece.King

/-- `ChessBoard::isSquareAttacked`: whether the square `(r, c)` is attacked
by `attackerColor`, as the disjunction of the five probe families. -/
def isSquareAttacked (b : Board) (r c : Int) (attackerColor : Nat) : Bool :=
  knightAttack b r c attackerColor
    || straightAttack b r c attackerColor
    || diagAttack b r c attackerColor
    || pawnAttack b r c attackerColor
    || kingAttack b r c attackerColor

/-- Path-emptiness loop of the sliding-piece geometry: check the `n` squares
at indices `i, i+1, ...` along the unit step from the source. -/
def pathClearN (b : Board) (r c rs cs : Int) : Nat → Nat → Bool
  | _, 0 => true
  | i, n + 1 =>
    (getI b (r + rs * (i : Int)) (c + cs * (i : Int)) == 0)
      && pathClearN b r c rs cs (i + 1) n

/-- Unit step sign, as computed by the slider branch of `validateGeometry`. -/
def sgn (d : Int) : Int := if d = 0 then 0 else if d > 0 then 1 else -1

/-- Signed coordinate difference (destination minus source). -/
def diffI (a c : Fin 8) : Int := ((c : Nat) : Int) - ((a : Nat) : Int)

/-- Pawn forward direction, read off the White bit of the piece byte
(the C++ ternary `(piece & Piece::White) ? -1 : 1`). -/
def pawnDirOf (piece : Nat) : Int := if piece &&& Piece.White ≠ 0 then -1 else 1

/-- Pawn home rank, read off the White bit of the piece byte
(the C++ ternary `(piece & Piece::White) ? 6 : 1`). -/
def pawnHomeOf (piece : Nat) : Nat := if piece &&& Piece.White ≠ 0 then 6 else 1

/-- Pawn branch of `validateGeometry` (`case Piece::Pawn`): one step forward
onto an empty cell, two steps from the home rank over two empty cells, or a
diagonal step onto an occupied cell. -/
def pawnRule (b : Board) (sr sc tr tc : Fin 8) : Bool :=
  let target := b tr tc
  let rowDiff : Int := diffI sr tr
  let colDiff : Int := diffI sc tc
  let direction : Int := pawnDirOf (b sr sc)
  if colDiff = 0 ∧ rowDiff = direction then target == 0
  else if colDiff = 0 ∧ rowDiff = 2 * direction ∧
      (sr : Nat) = pawnHomeOf (b sr sc) ∧
      target = 0 ∧ getI b (((sr : Nat) : Int) + direction) ((sc : Nat) : Int) = 0 then
    true
  else if colDiff.natAbs = 1 ∧ rowDiff = direction then target != 0
  else false

/-- Knight branch of `validateGeometry` (`case Piece::Knight`). -/
def knightRule (sr sc tr tc : Fin 8) : Bool :=
  decide (((diffI sr tr).natAbs = 2 ∧ (diffI sc tc).natAbs = 1)
    ∨ ((diffI sr tr).natAbs = 1 ∧ (diffI sc tc).natAbs = 2))

/-- King branch of `validateGeometry` (`case Piece::King`). -/
def kingRule (sr sc tr tc : Fin 8) : Bool :=
  decide ((diffI sr tr).natAbs ≤ 1 ∧ (diffI sc tc).natAbs ≤ 1)

/-- Shared Rook/Bishop/Queen branch of `validateGeometry`: shape check per
`type`, then the intervening squares must all be empty. -/
def sliderRule (b : Board) (sr sc tr tc : Fin 8) (type : Nat) : Bool :=
  let rowDiff : Int := diffI sr tr
  let colDiff : Int := diffI sc tc
  let isStraight := (sr : Nat) = (tr : Nat) ∨ (sc : Nat) = (tc : Nat)
  let isDiagonal := rowDiff.natAbs = colDiff.natAbs
  if type = 4 ∧ ¬ isStraight then false
  else if type = 3 ∧ ¬ isDiagonal then false
  else if type = 5 ∧ ¬ isStraight ∧ ¬ isDiagonal then false
  else
    pathClearN b ((sr : Nat) : Int) ((sc : Nat) : Int)
      (sgn rowDiff) (sgn colDiff) 1 (max rowDiff.natAbs colDiff.natAbs - 1)

/-- The `switch (piece & typeMask)` dispatch of `validateGeometry`. -/
def kindRule (b : Board) (sr sc tr tc : Fin 8) : Bool :=
  match b sr sc &&& typeMask with
  | 1 => pawnRule b sr sc tr tc
  | 2 => knightRule sr sc tr tc
  | 6 => kingRule sr sc tr tc
  | 4 | 3 | 5 => sliderRule b sr sc tr tc (b sr sc &&& typeMask)
  | _ => false

/-- `ChessBoard::validateGeometry`: pure per-piece movement-shape check,
ignoring check-safety.  Arguments: source `(sr, sc)` (the C++ `currR, currC`)
and destination `(tr, tc)` (the C++ `moveR, moveC`).  Empty source and
same-color destination are rejected up front, then the per-kind rule runs. -/
def validateGeometry (b : Board) (sr sc tr tc : Fin 8) : Bool :=
  if b sr sc = 0 then false
  else if b tr tc ≠ 0 ∧ (b sr sc &&& colorMask) = (b tr tc &&& colorMask) then false
  else kindRule b sr sc tr tc

/-- All 64 squares in the row-major order of the C++ scan loops. -/
def allSquares : List (Fin 8 × Fin 8) :=
  (List.finRange 8).flatMap fun i => (List.finRange 8).map fun j => (i, j)

/-- Cell predicate used by `findKing`: a King of the requested color. -/
def kingPred (b : Board) (color : Nat) (s : Fin 8 × Fin 8) : Bool :=
  ((b s.1 s.2 &&& typeMask) == Piece.King) && ((b s.1 s.2 &&& colorMask) == color)

/-- `ChessBoard::findKing`: first King of `color` in row-major scan order,
or `(-1, -1)` when absent. -/
def findKing (b : Board) (color : Nat) : Int × Int :=
  match allSquares.find? (kingPred b color) with
  | some s => (((s.1 : Nat) : Int), ((s.2 : Nat) : Int))
  | none => (-1, -1)

/-- Opponent of a color, as the engine computes it (ternary on White). -/
def enemyOf (color : Nat) : Nat :=
  if color == Piece.White then Piece.Black else Piece.White

/-- The single board mutation primitive: copy the source cell onto the
destination, then clear the source (both the simulation step of
`isSafeMove` and the commit step of `makeMove` perform exactly this). -/
def commitMove (b : Board) (currR currC moveR moveC : Fin 8) : Board :=
  setB (setB b moveR moveC (b currR currC)) currR currC Piece.None

/-- `ChessBoard::isSafeMove` with its board mutations made explicit: returns
the boolean verdict together with the board left behind (the simulation is
applied in place and both saved cells are restored before returning). -/
def isSafeMoveSt (b : Board) (currR currC moveR moveC : Fin 8) : Bool × Board :=
  if validateGeometry b currR currC moveR moveC = false then (false, b)
  else
    let originalSource := b currR currC
    let originalDest := b moveR moveC
    let b2 := commitMove b currR currC moveR moveC
    let myColor := originalSource &&& colorMask
    let enemyColor := enemyOf myColor
    let k := findKing b2 myColor
    let inCheck := isSquareAttacked b2 k.1 k.2 enemyColor
    let b4 := setB (setB b2 currR currC originalSource) moveR moveC originalDest
    (!inCheck, b4)

/-- Boolean verdict of `ChessBoard::isSafeMove`. -/
def isSafeMove (b : Board) (currR currC moveR moveC : Fin 8) : Bool :=
  (isSafeMoveSt b currR currC moveR moveC).1

/-- Inner destination loop body of `hasAnyLegalMoves`, threading the board
state; once a legal move was found the remaining probes are skipped (the
C++ returns immediately). -/
def innerStep (s : Fin 8 × Fin 8) (st : Bool × Board) (t : Fin 8 × Fin 8) : Bool × Board :=
  if st.1 then st else isSafeMoveSt st.2 s.1 s.2 t.1 t.2

/-- Outer source loop body of `hasAnyLegalMoves`: squares holding a piece of
`color` get all 64 destinations probed. -/
def outerStep (color : Nat) (st : Bool × Board) (s : Fin 8 × Fin 8) : Bool × Board :=
  if st.1 then st
  else if (st.2 s.1 s.2 &&& colorMask) == color then
    allSquares.foldl (innerStep s) st
  else st

/-- `ChessBoard::hasAnyLegalMoves` with its board threading made explicit. -/
def hasAnyLegalMovesSt (b : Board) (color : Nat) : Bool × Board :=
  allSquares.foldl (outerStep color) (false, b)

/-- Boolean verdict of `ChessBoard::hasAnyLegalMoves`. -/
def hasAnyLegalMoves (b : Board) (color : Nat) : Bool :=
  (hasAnyLegalMovesSt b color).1

/-- `ChessBoard::getGameState` with its board threading made explicit. -/
def getGameStateSt (b : Board) (playerColor : Nat) : GameState × Board :=
  let enemyColor := enemyOf playerColor
  let k := findKing b playerColor
  let inCheck := isSquareAttacked b k.1 k.2 enemyColor
  let hm := hasAnyLegalMovesSt b playerColor
  (if inCheck && !hm.1 then GameState.Checkmate
   else if inCheck then GameState.Check
   else if !hm.1 then GameState.Stalemate
   else GameState.Playing, hm.2)

/-- `GameState` verdict of `ChessBoard::getGameState`. -/
def getGameState (b : Board) (playerColor : Nat) : GameState :=
  (getGameStateSt b playerColor).1

/-- `ChessBoard::checkColor`: the ownership gate of the source-selection
step of `makeMove`. -/
def checkColor (isWhitesTurn : Bool) (piece : Nat) : Bool :=
  isWhitesTurn == ((piece &&& colorMask) == Piece.White)

/-! ### Basic board lemmas -/

lemma setB_same (b : Board) (r c : Fin 8) (v : Nat) : setB b r c v r c = v := by
  simp [setB]

lemma setB_other (b : Board) (r c : Fin 8) (v : Nat) {i j : Fin 8}
    (h : ¬(i = r ∧ j = c)) : setB b r c v i j = b i j := by
  simp [setB, h]

lemma restore_eq (b : Board) (sr sc tr tc : Fin 8) :
    setB (setB (commitMove b sr sc tr tc) sr sc (b sr sc)) tr tc (b tr tc) = b := by
  funext i j
  simp only [commitMove, setB]
  by_cases h1 : i = tr ∧ j = tc
  · obtain ⟨rfl, rfl⟩ := h1
    simp
  · by_cases h2 : i = sr ∧ j = sc
    · obtain ⟨rfl, rfl⟩ := h2
      simp [h1]
    · simp [h1, h2]

/-- The simulate-and-restore sequence hands back exactly the input board. -/
lemma isSafeMoveSt_snd (b : Board) (sr sc tr tc : Fin 8) :
    (isSafeMoveSt b sr sc tr tc).2 = b := by
  unfold isSafeMoveSt
  split
  · rfl
  · exact restore_eq b sr sc tr tc

lemma isSafeMoveSt_eq (b : Board) (sr sc tr tc : Fin 8) :
    isSafeMoveSt b sr sc tr tc = (isSafeMove b sr sc tr tc, b) := by
  have h := isSafeMoveSt_snd b sr sc tr tc
  rw [isSafeMove]
  cases hst : isSafeMoveSt b sr sc tr tc with
  | mk x y =>
    rw [hst] at h
    simpa using h

/-! ### Characterizing the legal-move scan -/

lemma mem_allSquares (s : Fin 8 × Fin 8) : s ∈ allSquares := by
  simp only [allSquares, List.mem_flatMap, List.mem_map, List.mem_finRange]
  exact ⟨s.1, trivial, s.2, trivial, rfl⟩

lemma foldl_innerStep (s : Fin 8 × Fin 8) (b : Board)
    (l : List (Fin 8 × Fin 8)) (r : Bool) :
    l.foldl (innerStep s) (r, b)
      = (r || l.any (fun t => isSafeMove b s.1 s.2 t.1 t.2), b) := by
  induction l generalizing r with
  | nil => simp
  | cons t l ih =>
    cases r with
    | true =>
      have h1 : innerStep s (true, b) t = (true, b) := by simp [innerStep]
      simp [List.foldl_cons, h1, ih]
    | false =>
      have h1 : innerStep s (false, b) t = (isSafeMove b s.1 s.2 t.1 t.2, b) := by
        simp [innerStep, isSafeMoveSt_eq]
      simp [List.foldl_cons, h1, ih, List.any_cons]

lemma foldl_outerStep (color : Nat) (b : Board)
    (l : List (Fin 8 × Fin 8)) (r : Bool) :
    l.foldl (outerStep color) (r, b)
      = (r || l.any (fun s => ((b s.1 s.2 &&& colorMask) == color)
          && allSquares.any (fun t => isSafeMove b s.1 s.2 t.1 t.2)), b) := by
  induction l generalizing r with
  | nil => simp
  | cons s l ih =>
    cases r with
    | true =>
      have h1 : outerStep color (true, b) s = (true, b) := by simp [outerStep]
      simp [List.foldl_cons, h1, ih]
    | false =>
      by_cases hc : ((b s.1 s.2 &&& colorMask) == color) = true
      · have h1 : outerStep color (false, b) s = allSquares.foldl (innerStep s) (false, b) := by
          simp [outerStep, hc]
        rw [List.foldl_cons, h1, foldl_innerStep, Bool.false_or, ih]
        simp [List.any_cons, hc]
      · have h1 : outerStep color (false, b) s = (false, b) := by
          simp only [outerStep]
          rw [if_neg (by simp), if_neg hc]
        rw [List.foldl_cons, h1, ih]
        simp [List.any_cons, Bool.eq_false_iff.2 hc]

lemma hasAnyLegalMovesSt_eq (b : Board) (color : Nat) :
    hasAnyLegalMovesSt b color
      = (allSquares.any (fun s => ((b s.1 s.2 &&& colorMask) == color)
          && allSquares.any (fun t => isSafeMove b s.1 s.2 t.1 t.2)), b) := by
  rw [hasAnyLegalMovesSt, foldl_outerStep, Bool.false_or]

lemma hasAnyLegalMoves_iff (b : Board) (color : Nat) :
    hasAnyLegalMoves b color = true ↔
      ∃ s t : Fin 8 × Fin 8, (b s.1 s.2 &&& colorMask) = color
        ∧ isSafeMove b s.1 s.2 t.1 t.2 = true := by
  rw [hasAnyLegalMoves, hasAnyLegalMovesSt_eq]
  constructor
  · intro h
    rw [List.any_eq_true] at h
    obtain ⟨s, -, hs⟩ := h
    rw [Bool.and_eq_true, List.any_eq_true] at hs
    obtain ⟨hc, t, -, ht⟩ := hs
    exact ⟨s, t, by simpa using hc, ht⟩
  · rintro ⟨s, t, hc, ht⟩
    rw [List.any_eq_true]
    refine ⟨s, mem_allSquares s, ?_⟩
    rw [Bool.and_eq_true]
    exact ⟨by simpa using hc, List.any_eq_true.2 ⟨t, mem_allSquares t, ht⟩⟩

lemma getGameStateSt_snd (b : Board) (color : Nat) :
    (getGameStateSt b color).2 = b := by
  rw [getGameStateSt, hasAnyLegalMovesSt_eq]

/-! ### Spec-side notions -/

/-- The in-check test of `getGameState`: the square delivered by `findKing`
for the color is attacked by the opposite color. -/
def kingInCheck (b : Board) (color : Nat) : Bool :=
  isSquareAttacked b (findKing b color).1 (findKing b color).2 (enemyOf color)

/-- The color has at least one safe move: some square holding a piece of
that color admits some destination accepted by `isSafeMove`. -/
def hasSafeMoveSpec (b : Board) (color : Nat) : Prop :=
  ∃ s t : Fin 8 × Fin 8, (b s.1 s.2 &&& colorMask) = color
    ∧ isSafeMove b s.1 s.2 t.1 t.2 = true

/-- Spec-side ownership: the cell holds a piece of the side to move. -/
def ownsPiece (isWhitesTurn : Bool) (piece : Nat) : Prop :=
  piece ≠ 0 ∧ piece &&& colorMask = (if isWhitesTurn then Piece.White else Piece.Black)

lemma getGameState_eq (b : Board) (color : Nat) :
    getGameState b color =
      (if kingInCheck b color && !hasAnyLegalMoves b color then GameState.Checkmate
       else if kingInCheck b color then GameState.Check
       else if !hasAnyLegalMoves b color then GameState.Stalemate
       else GameState.Playing) := rfl

/-- C1: `getGameState` classifies a color as Checkmate exactly when its King
is attacked and it has no safe move, Check when attacked with a safe move,
Stalemate when unattacked with no safe move, Playing otherwise; Checkmate or
Stalemate is reported exactly when `hasAnyLegalMoves` is false. -/
theorem getGameState_classification : ∀ (b : Board) (color : Nat),
    (getGameState b color = GameState.Checkmate
      ↔ kingInCheck b color = true ∧ ¬ hasSafeMoveSpec b color)
  ∧ (getGameState b color = GameState.Check
      ↔ kingInCheck b color = true ∧ hasSafeMoveSpec b color)
  ∧ (getGameState b color = GameState.Stalemate
      ↔ kingInCheck b color = false ∧ ¬ hasSafeMoveSpec b color)
  ∧ (getGameState b color = GameState.Playing
      ↔ kingInCheck b color = false ∧ hasSafeMoveSpec b color)
  ∧ ((getGameState b color = GameState.Checkmate ∨ getGameState b color = GameState.Stalemate)
      ↔ hasAnyLegalMoves b color = false) := by
  intro b color
  have hS : hasSafeMoveSpec b color ↔ hasAnyLegalMoves b color = true := by
    rw [hasSafeMoveSpec]
    exact (hasAnyLegalMoves_iff b color).symm
  rw [getGameState_eq]
  cases hc : kingInCheck b color <;> cases hm : hasAnyLegalMoves b color <;>
    simp [hm] at hS <;> simp [hS]

/-- C3: `isSafeMove` hands the board back bit-for-bit unchanged on every
return path, whether it rejects (geometry failure or self-check) or accepts. -/
theorem isSafeMove_frame : ∀ (b : Board) (sr sc tr tc : Fin 8),
    (isSafeMoveSt b sr sc tr tc).2 = b :=
  isSafeMoveSt_snd

/-- C9: `getGameState` is read-only (the board it leaves behind is the board
it was given) and idempotent (an immediate second call returns the same
verdict on the same board). -/
theorem getGameState_readonly_idempotent : ∀ (b : Board) (color : Nat),
    (getGameStateSt b color).2 = b
  ∧ getGameStateSt (getGameStateSt b color).2 color = getGameStateSt b color :=
  fun b color => ⟨getGameStateSt_snd b color, by rw [getGameStateSt_snd]⟩

/-- C7 counterexample: on Black's turn the ownership gate accepts an empty
source square, although the empty square belongs to neither side. -/
theorem checkColor_empty_passes_black :
    checkColor false 0 = true ∧ ¬ ownsPiece false 0 := by
  refine ⟨by decide, ?_⟩
  simp [ownsPiece]

/-- C7 amended: the gate tests only whether the piece color-bits equal White
against the turn flag; on White's turn this coincides with ownership (empty
and Black cells are rejected), while on Black's turn exactly the White
pieces are rejected, so empty squares pass the ownership step. -/
theorem checkColor_amended : ∀ piece : Nat,
    (checkColor true piece = true ↔ ownsPiece true piece)
  ∧ (checkColor false piece = true ↔ piece &&& colorMask ≠ Piece.White) := by
  intro p
  constructor
  · constructor
    · intro h
      have h8 : p &&& colorMask = Piece.White := by simpa [checkColor] using h
      refine ⟨?_, by simpa using h8⟩
      intro hp0
      rw [hp0] at h8
      simp [colorMask, Piece.White] at h8
    · intro h
      simpa [checkColor] using h.2
  · simp [checkColor]

/-- C8: on a board with no King at all, the engine silently classifies the
position (`Stalemate`) instead of surfacing an invariant-violation fault;
`findKing` yields the sentinel `(-1, -1)` and `getGameState` keeps going. -/
theorem getGameState_kingless_silent :
    getGameState emptyBoard Piece.White = GameState.Stalemate
  ∧ getGameState emptyBoard Piece.Black = GameState.Stalemate
  ∧ findKing emptyBoard Piece.White = (-1, -1)
  ∧ findKing emptyBoard Piece.Black = (-1, -1) := by
  refine ⟨by decide, by decide, by decide, by decide⟩

/-! ### Geometry: sliding pieces (C5) -/

lemma pathClearN_iff (b : Board) (r c rs cs : Int) :
    ∀ (n i : Nat), (pathClearN b r c rs cs i n = true ↔
      ∀ j : Nat, i ≤ j → j < i + n → getI b (r + rs * (j : Int)) (c + cs * (j : Int)) = 0)
  | 0, i => by
    simp only [pathClearN, true_iff]
    intro j h1 h2
    exact absurd h2 (by omega)
  | n + 1, i => by
    rw [pathClearN, Bool.and_eq_true, beq_iff_eq, pathClearN_iff b r c rs cs n (i + 1)]
    constructor
    · rintro ⟨h0, hrest⟩ j hj1 hj2
      rcases Nat.eq_or_lt_of_le hj1 with rfl | hlt
      · exact h0
      · exact hrest j hlt (by omega)
    · intro h
      exact ⟨h i le_rfl (by omega), fun j hj1 hj2 => h j (by omega) (by omega)⟩

lemma kindRule_pawn {b : Board} {sr sc tr tc : Fin 8} (hk : b sr sc &&& typeMask = 1) :
    kindRule b sr sc tr tc = pawnRule b sr sc tr tc := by
  unfold kindRule
  rw [hk]

lemma kindRule_knight {b : Board} {sr sc tr tc : Fin 8} (hk : b sr sc &&& typeMask = 2) :
    kindRule b sr sc tr tc = knightRule sr sc tr tc := by
  unfold kindRule
  rw [hk]

lemma kindRule_king {b : Board} {sr sc tr tc : Fin 8} (hk : b sr sc &&& typeMask = 6) :
    kindRule b sr sc tr tc = kingRule sr sc tr tc := by
  unfold kindRule
  rw [hk]

lemma kindRule_slider {b : Board} {sr sc tr tc : Fin 8}
    (hk : b sr sc &&& typeMask = 4 ∨ b sr sc &&& typeMask = 3 ∨ b sr sc &&& typeMask = 5) :
    kindRule b sr sc tr tc = sliderRule b sr sc tr tc (b sr sc &&& typeMask) := by
  unfold kindRule
  rcases hk with hk | hk | hk <;> rw [hk]

/-- The acceptance of `validateGeometry` decomposed into its three gates. -/
lemma validateGeometry_iff (b : Board) (sr sc tr tc : Fin 8) :
    validateGeometry b sr sc tr tc = true ↔
      b sr sc ≠ 0
      ∧ ¬(b tr tc ≠ 0 ∧ (b sr sc &&& colorMask) = (b tr tc &&& colorMask))
      ∧ kindRule b sr sc tr tc = true := by
  unfold validateGeometry
  split_ifs with h1 h2
  · simp [h1]
  · simp [h1, h2]
  · simp [h1, h2]

/-- Spec-side Rook shape: same row or same column. -/
def straightShape (sr sc tr tc : Fin 8) : Prop :=
  (sr : Nat) = (tr : Nat) ∨ (sc : Nat) = (tc : Nat)

/-- Spec-side Bishop shape: equal absolute row and column deltas. -/
def diagShape (sr sc tr tc : Fin 8) : Prop :=
  (diffI sr tr).natAbs = (diffI sc tc).natAbs

/-- Spec-side path emptiness: every square strictly between source and
destination along the unit step direction is empty. -/
def pathIsClear (b : Board) (sr sc tr tc : Fin 8) : Prop :=
  ∀ i : Nat, 1 ≤ i → i < max (diffI sr tr).natAbs (diffI sc tc).natAbs →
    getI b (((sr : Nat) : Int) + sgn (diffI sr tr) * (i : Int))
      (((sc : Nat) : Int) + sgn (diffI sc tc) * (i : Int)) = 0

lemma sliderRule_elim {b : Board} {sr sc tr tc : Fin 8} {ty : Nat}
    (h : sliderRule b sr sc tr tc ty = true) :
    (ty = 4 → straightShape sr sc tr tc)
  ∧ (ty = 3 → diagShape sr sc tr tc)
  ∧ (ty = 5 → straightShape sr sc tr tc ∨ diagShape sr sc tr tc)
  ∧ pathIsClear b sr sc tr tc := by
  unfold sliderRule at h
  simp only at h
  split_ifs at h with h1 h2 h3
  rw [pathClearN_iff] at h
  refine ⟨?_, ?_, ?_, ?_⟩
  · intro h4
    by_contra hs
    exact h1 ⟨h4, hs⟩
  · intro h4
    by_contra hs
    exact h2 ⟨h4, hs⟩
  · intro h4
    by_contra hs
    push_neg at hs
    exact h3 ⟨h4, hs.1, hs.2⟩
  · intro i hi1 hi2
    exact h i hi1 (by omega)

/-- C5: for a Rook, Bishop or Queen move, `validateGeometry` accepts only if
the move's shape matches the piece kind and every square strictly between
source and destination along the unit step is empty (no blocked path). -/
theorem slider_geometry_only_if (b : Board) (sr sc tr tc : Fin 8)
    (ht : (b sr sc &&& typeMask) = Piece.Rook ∨ (b sr sc &&& typeMask) = Piece.Bishop
      ∨ (b sr sc &&& typeMask) = Piece.Queen)
    (hacc : validateGeometry b sr sc tr tc = true) :
    ((b sr sc &&& typeMask) = Piece.Rook → straightShape sr sc tr tc)
  ∧ ((b sr sc &&& typeMask) = Piece.Bishop → diagShape sr sc tr tc)
  ∧ ((b sr sc &&& typeMask) = Piece.Queen → straightShape sr sc tr tc ∨ diagShape sr sc tr tc)
  ∧ pathIsClear b sr sc tr tc := by
  rw [validateGeometry_iff] at hacc
  have hk := hacc.2.2
  rw [kindRule_slider ht] at hk
  exact sliderRule_elim hk

/-- A board holding a single White Rook at a1 (row 0, column 0). -/
def rookBoard : Board := fun r c =>
  if (r : Nat) = 0 ∧ (c : Nat) = 0 then Piece.Rook ||| Piece.White else Piece.None

/-- Witness for C5 at a concrete accepted Rook move on `rookBoard`. -/
theorem slider_geometry_only_if_witness :
    ((rookBoard 0 0 &&& typeMask) = Piece.Rook ∨ (rookBoard 0 0 &&& typeMask) = Piece.Bishop
      ∨ (rookBoard 0 0 &&& typeMask) = Piece.Queen)
  ∧ validateGeometry rookBoard 0 0 0 5 = true
  ∧ (((rookBoard 0 0 &&& typeMask) = Piece.Rook → straightShape 0 0 0 5)
     ∧ ((rookBoard 0 0 &&& typeMask) = Piece.Bishop → diagShape 0 0 0 5)
     ∧ ((rookBoard 0 0 &&& typeMask) = Piece.Queen → straightShape 0 0 0 5 ∨ diagShape 0 0 0 5)
     ∧ pathIsClear rookBoard 0 0 0 5) :=
  ⟨by decide, by decide, slider_geometry_only_if rookBoard 0 0 0 5 (by decide) (by decide)⟩

/-! ### Geometry: pawns (C4) -/

lemma land_colorMask_white (p : Nat) : p &&& colorMask &&& Piece.White = p &&& Piece.White := by
  rw [Nat.land_assoc]
  have h0 : colorMask &&& Piece.White = Piece.White := by decide
  rw [h0]

lemma white_bit_of_white {p : Nat} (h : p &&& colorMask = Piece.White) :
    p &&& Piece.White = 8 := by
  rw [← land_colorMask_white p, h]
  decide

lemma white_bit_of_black {p : Nat} (h : p &&& colorMask = Piece.Black) :
    p &&& Piece.White = 0 := by
  rw [← land_colorMask_white p, h]
  decide

lemma pawn_white_aux {p : Nat} (h : p &&& colorMask = Piece.White) :
    pawnDirOf p = -1 ∧ pawnHomeOf p = 6 := by
  have h8 := white_bit_of_white h
  constructor <;> simp [pawnDirOf, pawnHomeOf, h8]

lemma pawn_black_aux {p : Nat} (h : p &&& colorMask = Piece.Black) :
    pawnDirOf p = 1 ∧ pawnHomeOf p = 1 := by
  have h8 := white_bit_of_black h
  constructor <;> simp [pawnDirOf, pawnHomeOf, h8]

lemma pawnRule_iff (b : Board) (sr sc tr tc : Fin 8) (d : Int) (e : Nat)
    (hd : pawnDirOf (b sr sc) = d) (hh : pawnHomeOf (b sr sc) = e)
    (hd0 : d = -1 ∨ d = 1) :
    pawnRule b sr sc tr tc = true ↔
      ((diffI sc tc = 0 ∧ diffI sr tr = d ∧ b tr tc = 0)
      ∨ (diffI sc tc = 0 ∧ diffI sr tr = 2 * d ∧ (sr : Nat) = e ∧ b tr tc = 0
          ∧ getI b (((sr : Nat) : Int) + d) ((sc : Nat) : Int) = 0)
      ∨ ((diffI sc tc).natAbs = 1 ∧ diffI sr tr = d ∧ b tr tc ≠ 0)) := by
  simp only [pawnRule]
  rw [hd, hh]
  split_ifs with h1 h2 h3
  · rw [beq_iff_eq]
    constructor
    · intro ht
      exact Or.inl ⟨h1.1, h1.2, ht⟩
    · rintro (⟨a1, a2, a3⟩ | ⟨a1, a2, a3, a4, a5⟩ | ⟨a1, a2, a3⟩)
      · exact a3
      · exact absurd a2 (by rcases hd0 with rfl | rfl <;> omega)
      · exact absurd a1 (by omega)
  · exact iff_of_true rfl (Or.inr (Or.inl h2))
  · rw [bne_iff_ne]
    constructor
    · intro ht
      exact Or.inr (Or.inr ⟨h3.1, h3.2, ht⟩)
    · rintro (⟨a1, a2, a3⟩ | ⟨a1, a2, a3, a4, a5⟩ | ⟨a1, a2, a3⟩)
      · exact absurd a1 (by omega)
      · exact absurd a1 (by omega)
      · exact a3
  · constructor
    · intro h
      cases h
    · rintro (⟨a1, a2, a3⟩ | ⟨a1, a2, a3, a4, a5⟩ | ⟨a1, a2, a3⟩)
      · exact absurd ⟨a1, a2⟩ h1
      · exact absurd ⟨a1, a2, a3, a4, a5⟩ h2
      · exact absurd ⟨a1, a2⟩ h3

/-- Spec-side pawn forward direction by color: -1 for White, +1 for Black. -/
def pawnDir (color : Nat) : Int := if color = Piece.White then -1 else 1

/-- Spec-side pawn home rank by color: row 6 for White, row 1 for Black. -/
def pawnHome (color : Nat) : Nat := if color = Piece.White then 6 else 1

/-- C4: a pawn move is accepted by `validateGeometry` exactly when it is a
one-step forward move onto an empty square, a two-step forward move from the
home rank over an empty intermediate square onto an empty square, or a
one-step diagonal move onto a square occupied by an enemy piece. -/
theorem pawn_geometry_iff (b : Board) (sr sc tr tc : Fin 8)
    (hp : (b sr sc &&& typeMask) = Piece.Pawn)
    (hc : (b sr sc &&& colorMask) = Piece.White ∨ (b sr sc &&& colorMask) = Piece.Black)
    (htwf : b tr tc ≠ 0 →
      (b tr tc &&& colorMask) = Piece.White ∨ (b tr tc &&& colorMask) = Piece.Black) :
    validateGeometry b sr sc tr tc = true ↔
      ((diffI sc tc = 0 ∧ diffI sr tr = pawnDir (b sr sc &&& colorMask) ∧ b tr tc = 0)
      ∨ (diffI sc tc = 0 ∧ diffI sr tr = 2 * pawnDir (b sr sc &&& colorMask)
          ∧ (sr : Nat) = pawnHome (b sr sc &&& colorMask)
          ∧ b tr tc = 0
          ∧ getI b (((sr : Nat) : Int) + pawnDir (b sr sc &&& colorMask)) ((sc : Nat) : Int) = 0)
      ∨ ((diffI sc tc = 1 ∨ diffI sc tc = -1)
          ∧ diffI sr tr = pawnDir (b sr sc &&& colorMask)
          ∧ b tr tc ≠ 0
          ∧ (b tr tc &&& colorMask) = enemyOf (b sr sc &&& colorMask))) := by
  have hne : b sr sc ≠ 0 := by
    intro h0
    rw [h0] at hp
    simp [typeMask, Piece.Pawn] at hp
  rw [validateGeometry_iff, kindRule_pawn hp]
  rcases hc with hc | hc
  · obtain ⟨hd, hh⟩ := pawn_white_aux hc
    rw [pawnRule_iff b sr sc tr tc (-1) 6 hd hh (Or.inl rfl), hc]
    have hdir : pawnDir Piece.White = -1 := by simp [pawnDir]
    have hhome : pawnHome Piece.White = 6 := by simp [pawnHome]
    have hen : enemyOf Piece.White = Piece.Black := by simp [enemyOf]
    rw [hdir, hhome, hen]
    constructor
    · rintro ⟨-, hff, hbody⟩
      rcases hbody with ⟨a1, a2, a3⟩ | ⟨a1, a2, a3, a4, a5⟩ | ⟨a1, a2, a3⟩
      · exact Or.inl ⟨a1, a2, a3⟩
      · exact Or.inr (Or.inl ⟨a1, a2, a3, a4, a5⟩)
      · refine Or.inr (Or.inr ⟨by omega, a2, a3, ?_⟩)
        rcases htwf a3 with ht | ht
        · exact absurd ⟨a3, ht.symm⟩ hff
        · exact ht
    · rintro (⟨a1, a2, a3⟩ | ⟨a1, a2, a3, a4, a5⟩ | ⟨a1, a2, a3, a4⟩)
      · exact ⟨hne, by simp [a3], Or.inl ⟨a1, a2, a3⟩⟩
      · exact ⟨hne, by simp [a4], Or.inr (Or.inl ⟨a1, a2, a3, a4, a5⟩)⟩
      · refine ⟨hne, ?_, Or.inr (Or.inr ⟨by omega, a2, a3⟩)⟩
        rintro ⟨-, hsame⟩
        rw [a4] at hsame
        exact absurd hsame (by decide)
  · obtain ⟨hd, hh⟩ := pawn_black_aux hc
    rw [pawnRule_iff b sr sc tr tc 1 1 hd hh (Or.inr rfl), hc]
    have hdir : pawnDir Piece.Black = 1 := by simp [pawnDir, Piece.White, Piece.Black]
    have hhome : pawnHome Piece.Black = 1 := by simp [pawnHome, Piece.White, Piece.Black]
    have hen : enemyOf Piece.Black = Piece.White := by simp [enemyOf, Piece.White, Piece.Black]
    rw [hdir, hhome, hen]
    constructor
    · rintro ⟨-, hff, hbody⟩
      rcases hbody with ⟨a1, a2, a3⟩ | ⟨a1, a2, a3, a4, a5⟩ | ⟨a1, a2, a3⟩
      · exact Or.inl ⟨a1, a2, a3⟩
      · exact Or.inr (Or.inl ⟨a1, a2, a3, a4, a5⟩)
      · refine Or.inr (Or.inr ⟨by omega, a2, a3, ?_⟩)
        rcases htwf a3 with ht | ht
        · exact ht
        · exact absurd ⟨a3, ht.symm⟩ hff
    · rintro (⟨a1, a2, a3⟩ | ⟨a1, a2, a3, a4, a5⟩ | ⟨a1, a2, a3, a4⟩)
      · exact ⟨hne, by simp [a3], Or.inl ⟨a1, a2, a3⟩⟩
      · exact ⟨hne, by simp [a4], Or.inr (Or.inl ⟨a1, a2, a3, a4, a5⟩)⟩
      · refine ⟨hne, ?_, Or.inr (Or.inr ⟨by omega, a2, a3⟩)⟩
        rintro ⟨-, hsame⟩
        rw [a4] at hsame
        exact absurd hsame (by decide)

/-- Witness for C4 at the concrete White pawn double step e2 to e4 on the
starting position. -/
theorem pawn_geometry_iff_witness :
    ((initBoard 6 4 &&& typeMask) = Piece.Pawn)
  ∧ ((initBoard 6 4 &&& colorMask) = Piece.White ∨ (initBoard 6 4 &&& colorMask) = Piece.Black)
  ∧ (initBoard 4 4 ≠ 0 →
      (initBoard 4 4 &&& colorMask) = Piece.White ∨ (initBoard 4 4 &&& colorMask) = Piece.Black)
  ∧ (validateGeometry initBoard 6 4 4 4 = true ↔
      ((diffI 4 4 = 0 ∧ diffI 6 4 = pawnDir (initBoard 6 4 &&& colorMask) ∧ initBoard 4 4 = 0)
      ∨ (diffI 4 4 = 0 ∧ diffI 6 4 = 2 * pawnDir (initBoard 6 4 &&& colorMask)
          ∧ ((6 : Fin 8) : Nat) = pawnHome (initBoard 6 4 &&& colorMask)
          ∧ initBoard 4 4 = 0
          ∧ getI initBoard ((((6 : Fin 8) : Nat) : Int) + pawnDir (initBoard 6 4 &&& colorMask))
              ((((4 : Fin 8) : Nat) : Int)) = 0)
      ∨ ((diffI 4 4 = 1 ∨ diffI 4 4 = -1)
          ∧ diffI 6 4 = pawnDir (initBoard 6 4 &&& colorMask)
          ∧ initBoard 4 4 ≠ 0
          ∧ (initBoard 4 4 &&& colorMask) = enemyOf (initBoard 6 4 &&& colorMask)))) :=
  ⟨by decide, by decide, by decide,
    pawn_geometry_iff initBoard 6 4 4 4 (by decide) (by decide) (by decide)⟩

/-! ### Attack detection: pawns (C6) -/

/-- Spec-side pawn-attack row offset: +1 for a White attacker, -1 for a
Black attacker (the side from which that color's pawns capture). -/
def pawnAttackRow (a : Nat) : Int := if a = Piece.White then 1 else -1

/-- C6: the pawn clause of `isSquareAttacked` fires exactly when a pawn of
the attacker color stands on a square diagonally adjacent to the target with
row offset +1 for a White attacker and -1 for a Black attacker (the sign of
the row offset is opposite to that color's own forward-move direction). -/
theorem pawnAttack_characterization (b : Board) (r c : Int) (a : Nat)
    (ha : a = Piece.White ∨ a = Piece.Black) :
    pawnAttackRow a = - pawnDir a
  ∧ (pawnAttack b r c a = true ↔
      ∃ dc : Int, (dc = -1 ∨ dc = 1)
        ∧ inRange (r + pawnAttackRow a) (c + dc)
        ∧ (getI b (r + pawnAttackRow a) (c + dc) &&& typeMask) = Piece.Pawn
        ∧ (getI b (r + pawnAttackRow a) (c + dc) &&& colorMask) = a) := by
  have hrow : (if (a == Piece.White) then (1 : Int) else -1) = pawnAttackRow a := by
    rcases ha with rfl | rfl <;>
      simp [pawnAttackRow, Piece.White, Piece.Black]
  constructor
  · rcases ha with rfl | rfl <;>
      simp [pawnAttackRow, pawnDir, Piece.White, Piece.Black]
  · unfold pawnAttack
    simp only
    rw [hrow]
    simp only [List.any_cons, List.any_nil, Bool.or_false]
    rw [Bool.or_eq_true]
    unfold attackerAt
    simp only [Bool.and_eq_true, decide_eq_true_eq, beq_iff_eq]
    constructor
    · rintro (⟨⟨h1, h2⟩, h3⟩ | ⟨⟨h1, h2⟩, h3⟩)
      · exact ⟨-1, Or.inl rfl, h1, h2, h3⟩
      · exact ⟨1, Or.inr rfl, h1, h2, h3⟩
    · rintro ⟨dc, (rfl | rfl), h1, h2, h3⟩
      · exact Or.inl ⟨⟨h1, h2⟩, h3⟩
      · exact Or.inr ⟨⟨h1, h2⟩, h3⟩

/-- Witness for C6: on the starting position the square (5, 3) is
pawn-attacked by White (pawns at (6, 2) and (6, 4)). -/
theorem pawnAttack_characterization_witness :
    ((Piece.White : Nat) = Piece.White ∨ (Piece.White : Nat) = Piece.Black)
  ∧ (pawnAttackRow Piece.White = - pawnDir Piece.White
    ∧ (pawnAttack initBoard 5 3 Piece.White = true ↔
        ∃ dc : Int, (dc = -1 ∨ dc = 1)
          ∧ inRange (5 + pawnAttackRow Piece.White) (3 + dc)
          ∧ (getI initBoard (5 + pawnAttackRow Piece.White) (3 + dc) &&& typeMask) = Piece.Pawn
          ∧ (getI initBoard (5 + pawnAttackRow Piece.White) (3 + dc) &&& colorMask)
              = Piece.White)) :=
  ⟨Or.inl rfl, pawnAttack_characterization initBoard 5 3 Piece.White (Or.inl rfl)⟩

/-! ### The safety check (C2) -/

lemma commitMove_src (b : Board) (sr sc tr tc : Fin 8) :
    commitMove b sr sc tr tc sr sc = 0 := by
  simp [commitMove, setB, Piece.None]

lemma commitMove_dst (b : Board) (sr sc tr tc : Fin 8) (h : ¬(tr = sr ∧ tc = sc)) :
    commitMove b sr sc tr tc tr tc = b sr sc := by
  simp [commitMove, setB, h]

lemma commitMove_other (b : Board) (sr sc tr tc : Fin 8) {i j : Fin 8}
    (h1 : ¬(i = sr ∧ j = sc)) (h2 : ¬(i = tr ∧ j = tc)) :
    commitMove b sr sc tr tc i j = b i j := by
  simp [commitMove, setB, h1, h2]

lemma validateGeometry_ne (b : Board) (sr sc tr tc : Fin 8)
    (hg : validateGeometry b sr sc tr tc = true) : ¬(sr = tr ∧ sc = tc) := by
  rw [validateGeometry_iff] at hg
  rintro ⟨rfl, rfl⟩
  exact hg.2.1 ⟨hg.1, rfl⟩

lemma find?_unique {α : Type} {p : α → Bool} {a : α} :
    ∀ {l : List α}, a ∈ l → p a = true → (∀ x ∈ l, p x = true → x = a) →
      l.find? p = some a := by
  intro l
  induction l with
  | nil => intro h; cases h
  | cons x l ih =>
    intro hmem hpa hu
    by_cases hx : p x = true
    · rw [List.find?_cons_of_pos _ hx, hu x (List.mem_cons_self x l) hx]
    · rw [List.find?_cons_of_neg _ hx]
      refine ih ?_ hpa ?_
      · rcases List.mem_cons.1 hmem with rfl | h
        · exact absurd hpa hx
        · exact h
      · intro y hy hpy
        exact hu y (List.mem_cons_of_mem x hy) hpy

lemma kingPred_iff (bb : Board) (color : Nat) (s : Fin 8 × Fin 8) :
    kingPred bb color s = true ↔
      (bb s.1 s.2 &&& typeMask) = Piece.King ∧ (bb s.1 s.2 &&& colorMask) = color := by
  simp [kingPred, Bool.and_eq_true, beq_iff_eq]

/-- After an accepted-geometry move by a color with a unique King on the
board, `findKing` on the mutated board returns the destination square when
the King itself moved and the old King square otherwise. -/
lemma findKing_after_move (b : Board) (sr sc tr tc kr kc : Fin 8)
    (hk : (b kr kc &&& typeMask) = Piece.King
        ∧ (b kr kc &&& colorMask) = (b sr sc &&& colorMask))
    (huniq : ∀ i j : Fin 8,
        (b i j &&& typeMask) = Piece.King
          ∧ (b i j &&& colorMask) = (b sr sc &&& colorMask) →
        i = kr ∧ j = kc)
    (hg : validateGeometry b sr sc tr tc = true) :
    findKing (commitMove b sr sc tr tc) (b sr sc &&& colorMask) =
      (if (b sr sc &&& typeMask) = Piece.King then ((tr : Nat) : Int) else ((kr : Nat) : Int),
       if (b sr sc &&& typeMask) = Piece.King then ((tc : Nat) : Int) else ((kc : Nat) : Int)) := by
  have hvg := (validateGeometry_iff b sr sc tr tc).1 hg
  have hff := hvg.2.1
  have hsd := validateGeometry_ne b sr sc tr tc hg
  by_cases hki : (b sr sc &&& typeMask) = Piece.King
  · obtain ⟨hkr, hkc⟩ := huniq sr sc ⟨hki, rfl⟩
    have hdst : commitMove b sr sc tr tc tr tc = b sr sc := by
      apply commitMove_dst
      rintro ⟨h1, h2⟩
      exact hsd ⟨h1.symm, h2.symm⟩
    have hfind : allSquares.find?
        (kingPred (commitMove b sr sc tr tc) (b sr sc &&& colorMask)) = some (tr, tc) := by
      apply find?_unique (mem_allSquares _) ?_ ?_
      · rw [kingPred_iff]
        exact ⟨by rw [hdst]; exact hki, by rw [hdst]⟩
      · rintro ⟨i, j⟩ - hx
        rw [kingPred_iff] at hx
        by_cases hd : i = tr ∧ j = tc
        · obtain ⟨rfl, rfl⟩ := hd
          rfl
        · by_cases hs : i = sr ∧ j = sc
          · obtain ⟨rfl, rfl⟩ := hs
            rw [commitMove_src] at hx
            simp [typeMask, Piece.King] at hx
          · rw [commitMove_other b sr sc tr tc hs hd] at hx
            obtain ⟨h1, h2⟩ := huniq i j hx
            exact absurd ⟨h1.trans hkr.symm, h2.trans hkc.symm⟩ hs
    rw [findKing, hfind]
    simp [hki]
  · have hkdst : ¬(kr = tr ∧ kc = tc) := by
      rintro ⟨rfl, rfl⟩
      apply hff
      refine ⟨?_, hk.2.symm⟩
      intro h0
      rw [h0] at hk
      simp [typeMask, Piece.King] at hk
    have hksrc : ¬(kr = sr ∧ kc = sc) := by
      rintro ⟨rfl, rfl⟩
      exact hki hk.1
    have hcell : commitMove b sr sc tr tc kr kc = b kr kc :=
      commitMove_other b sr sc tr tc hksrc hkdst
    have hfind : allSquares.find?
        (kingPred (commitMove b sr sc tr tc) (b sr sc &&& colorMask)) = some (kr, kc) := by
      apply find?_unique (mem_allSquares _) ?_ ?_
      · rw [kingPred_iff]
        exact ⟨by rw [hcell]; exact hk.1, by rw [hcell]; exact hk.2⟩
      · rintro ⟨i, j⟩ - hx
        rw [kingPred_iff] at hx
        by_cases hs : i = sr ∧ j = sc
        · obtain ⟨rfl, rfl⟩ := hs
          rw [commitMove_src] at hx
          simp [typeMask, Piece.King] at hx
        · by_cases hd : i = tr ∧ j = tc
          · have hdd : commitMove b sr sc tr tc tr tc = b sr sc := by
              apply commitMove_dst
              rintro ⟨e1, e2⟩
              exact hsd ⟨e1.symm, e2.symm⟩
            rw [hd.1, hd.2, hdd] at hx
            exact absurd hx.1 hki
          · rw [commitMove_other b sr sc tr tc hs hd] at hx
            obtain ⟨h1, h2⟩ := huniq i j hx
            rw [h1, h2]
    rw [findKing, hfind]
    simp [hki]

/-- C2: with a unique King of the moving color at `(kr, kc)`, `isSafeMove`
accepts exactly when the geometry is valid and, on the board with the move
applied (source cleared), the moving color's King square (the destination if
the King itself moved) is not attacked by the opposite color. -/
theorem isSafeMove_characterization (b : Board) (sr sc tr tc kr kc : Fin 8)
    (hk : (b kr kc &&& typeMask) = Piece.King
        ∧ (b kr kc &&& colorMask) = (b sr sc &&& colorMask))
    (huniq : ∀ i j : Fin 8,
        (b i j &&& typeMask) = Piece.King
          ∧ (b i j &&& colorMask) = (b sr sc &&& colorMask) →
        i = kr ∧ j = kc) :
    isSafeMove b sr sc tr tc =
      (validateGeometry b sr sc tr tc &&
        !isSquareAttacked (commitMove b sr sc tr tc)
          (if (b sr sc &&& typeMask) = Piece.King then ((tr : Nat) : Int) else ((kr : Nat) : Int))
          (if (b sr sc &&& typeMask) = Piece.King then ((tc : Nat) : Int) else ((kc : Nat) : Int))
          (enemyOf (b sr sc &&& colorMask))) := by
  cases hg : validateGeometry b sr sc tr tc with
  | false => simp [isSafeMove, isSafeMoveSt, hg]
  | true =>
    have hfk := findKing_after_move b sr sc tr tc kr kc hk huniq hg
    simp [isSafeMove, isSafeMoveSt, hg, hfk, enemyOf]

/-- Witness for C2 at the concrete move e2 to e4 on the starting position,
with the White King at (7, 4). -/
theorem isSafeMove_characterization_witness :
    ((initBoard 7 4 &&& typeMask) = Piece.King
      ∧ (initBoard 7 4 &&& colorMask) = (initBoard 6 4 &&& colorMask))
  ∧ (∀ i j : Fin 8,
      (initBoard i j &&& typeMask) = Piece.King
        ∧ (initBoard i j &&& colorMask) = (initBoard 6 4 &&& colorMask) →
      i = 7 ∧ j = 4)
  ∧ (isSafeMove initBoard 6 4 4 4 =
      (validateGeometry initBoard 6 4 4 4 &&
        !isSquareAttacked (commitMove initBoard 6 4 4 4)
          (if (initBoard 6 4 &&& typeMask) = Piece.King
            then (((4 : Fin 8) : Nat) : Int) else (((7 : Fin 8) : Nat) : Int))
          (if (initBoard 6 4 &&& typeMask) = Piece.King
            then (((4 : Fin 8) : Nat) : Int) else (((4 : Fin 8) : Nat) : Int))
          (enemyOf (initBoard 6 4 &&& colorMask)))) :=
  ⟨by decide, by decide,
    isSafeMove_characterization initBoard 6 4 4 4 7 4 (by decide) (by decide)⟩

/-! ### Reachability invariant machinery (C10) -/

lemma getI_fin (b : Board) (i j : Fin 8) :
    getI b ((i : Nat) : Int) ((j : Nat) : Int) = b i j := by
  have hi := i.isLt
  have hj := j.isLt
  have h : inRange ((i : Nat) : Int) ((j : Nat) : Int) := by
    refine ⟨?_, ?_, ?_, ?_⟩ <;> omega
  rw [getI, dif_pos h]
  congr 1

lemma inRange_fin (i j : Fin 8) : inRange ((i : Nat) : Int) ((j : Nat) : Int) := by
  have hi := i.isLt
  have hj := j.isLt
  refine ⟨?_, ?_, ?_, ?_⟩ <;> omega

lemma attackerAt_of_cell (b : Board) (i j : Fin 8) (a t : Nat)
    (h1 : (b i j &&& typeMask) = t) (h2 : (b i j &&& colorMask) = a) :
    attackerAt b ((i : Nat) : Int) ((j : Nat) : Int) a t = true := by
  unfold attackerAt
  rw [getI_fin, h1, h2]
  simp [inRange_fin i j]

lemma attackerAt_congr (b : Board) {r1 c1 r2 c2 : Int} (a t : Nat)
    (h1 : r1 = r2) (h2 : c1 = c2) :
    attackerAt b r1 c1 a t = attackerAt b r2 c2 a t := by
  rw [h1, h2]

lemma getI_eq_of_eq (b : Board) {r1 c1 r2 c2 : Int}
    (h1 : r1 = r2) (h2 : c1 = c2) : getI b r1 c1 = getI b r2 c2 := by
  rw [h1, h2]

lemma isSquareAttacked_of_knight {b : Board} {r c : Int} {a : Nat}
    (h : knightAttack b r c a = true) : isSquareAttacked b r c a = true := by
  simp [isSquareAttacked, h]

lemma isSquareAttacked_of_straight {b : Board} {r c : Int} {a : Nat}
    (h : straightAttack b r c a = true) : isSquareAttacked b r c a = true := by
  simp [isSquareAttacked, h]

lemma isSquareAttacked_of_diag {b : Board} {r c : Int} {a : Nat}
    (h : diagAttack b r c a = true) : isSquareAttacked b r c a = true := by
  simp [isSquareAttacked, h]

lemma isSquareAttacked_of_pawn {b : Board} {r c : Int} {a : Nat}
    (h : pawnAttack b r c a = true) : isSquareAttacked b r c a = true := by
  simp [isSquareAttacked, h]

lemma isSquareAttacked_of_king {b : Board} {r c : Int} {a : Nat}
    (h : kingAttack b r c a = true) : isSquareAttacked b r c a = true := by
  simp [isSquareAttacked, h]

/-- A cell is well formed when it is empty or holds a kind in 1..6 colored
White or Black (the only values the engine ever writes). -/
abbrev WfCell (p : Nat) : Prop :=
  p = 0 ∨ (1 ≤ p &&& typeMask ∧ p &&& typeMask ≤ 6
    ∧ (p &&& colorMask = Piece.White ∨ p &&& colorMask = Piece.Black))

/-- All 64 cells are well formed. -/
abbrev WfBoard (b : Board) : Prop := ∀ i j : Fin 8, WfCell (b i j)

/-- The cell at `(i, j)` holds a King of `color`. -/
abbrev isKingCell (b : Board) (color : Nat) (i j : Fin 8) : Prop :=
  (b i j &&& typeMask) = Piece.King ∧ (b i j &&& colorMask) = color

/-- Exactly one King of `color` is on the board. -/
abbrev uniqueKing (b : Board) (color : Nat) : Prop :=
  ∃ kr kc : Fin 8, isKingCell b color kr kc
    ∧ ∀ i j : Fin 8, isKingCell b color i j → i = kr ∧ j = kc

/-- The color whose turn it is. -/
def turnColor (w : Bool) : Nat := if w then Piece.White else Piece.Black

/-- The color that is not to move. -/
def notTurnColor (w : Bool) : Nat := if w then Piece.Black else Piece.White

/-- Boards reachable from the starting position: each step passes the
ownership gate (`checkColor`) and the safety check (`isSafeMove`), is
committed by the single board mutation primitive, and flips the turn. -/
inductive Reachable : Board → Bool → Prop where
  | init : Reachable initBoard true
  | step {b : Board} {w : Bool} (sr sc tr tc : Fin 8) :
      Reachable b w →
      checkColor w (b sr sc) = true →
      isSafeMove b sr sc tr tc = true →
      Reachable (commitMove b sr sc tr tc) (!w)

/-- Inductive invariant: well-formed cells, one King per color, and the side
that is not to move is not in check. -/
abbrev EngineInv (b : Board) (w : Bool) : Prop :=
  WfBoard b ∧ uniqueKing b Piece.White ∧ uniqueKing b Piece.Black
    ∧ ∀ i j : Fin 8, isKingCell b (notTurnColor w) i j →
        isSquareAttacked b ((i : Nat) : Int) ((j : Nat) : Int) (turnColor w) = false

lemma rayScanAux_hit (b : Board) (a k1 k2 : Nat) (r c dr dc : Int) (D : Nat) (n : Nat) :
    ∀ d : Nat, 1 ≤ d → d ≤ D → D < d + n →
      (∀ j : Nat, d ≤ j → j < D →
        inRange (r + dr * (j : Int)) (c + dc * (j : Int))
          ∧ getI b (r + dr * (j : Int)) (c + dc * (j : Int)) = 0) →
      inRange (r + dr * (D : Int)) (c + dc * (D : Int)) →
      getI b (r + dr * (D : Int)) (c + dc * (D : Int)) ≠ 0 →
      (getI b (r + dr * (D : Int)) (c + dc * (D : Int)) &&& colorMask) = a →
      ((getI b (r + dr * (D : Int)) (c + dc * (D : Int)) &&& typeMask) = k1
        ∨ (getI b (r + dr * (D : Int)) (c + dc * (D : Int)) &&& typeMask) = k2) →
      rayScanAux b a k1 k2 r c dr dc d n = true := by
  induction n with
  | zero =>
    intro d h1 h2 h3
    exact absurd h3 (by omega)
  | succ n ih =>
    intro d h1 h2 h3 hmid hin hocc hcol hty
    simp only [rayScanAux]
    by_cases hdD : d = D
    · subst hdD
      rw [if_pos hin, if_pos hocc]
      exact decide_eq_true ⟨hcol, hty⟩
    · have hd1 : d < D := by omega
      obtain ⟨hinj, hj0⟩ := hmid d le_rfl hd1
      rw [if_pos hinj, if_neg (by simp [hj0])]
      exact ih (d + 1) (by omega) (by omega) (by omega)
        (fun j hj1 hj2 => hmid j (by omega) hj2) hin hocc hcol hty

lemma endpoint_retarget (sr tr : Fin 8) (rs : Int) (D : Nat)
    (hrs : rs = -1 ∨ rs = 0 ∨ rs = 1)
    (hrd : ((tr : Nat) : Int) - ((sr : Nat) : Int) = rs * D) :
    ((tr : Nat) : Int) + (-rs) * (D : Int) = ((sr : Nat) : Int) := by
  rcases hrs with rfl | rfl | rfl <;> omega

lemma clear_retarget (b : Board) (sr sc tr tc : Fin 8) (rs cs : Int) (D : Nat)
    (hrs : rs = -1 ∨ rs = 0 ∨ rs = 1) (hcs : cs = -1 ∨ cs = 0 ∨ cs = 1)
    (hrd : ((tr : Nat) : Int) - ((sr : Nat) : Int) = rs * D)
    (hcd : ((tc : Nat) : Int) - ((sc : Nat) : Int) = cs * D)
    (hclear : ∀ i : Nat, 1 ≤ i → i < D →
      getI b (((sr : Nat) : Int) + rs * (i : Int)) (((sc : Nat) : Int) + cs * (i : Int)) = 0) :
    ∀ j : Nat, 1 ≤ j → j < D →
      inRange (((tr : Nat) : Int) + (-rs) * (j : Int)) (((tc : Nat) : Int) + (-cs) * (j : Int))
        ∧ getI b (((tr : Nat) : Int) + (-rs) * (j : Int))
            (((tc : Nat) : Int) + (-cs) * (j : Int)) = 0 := by
  have hsr := sr.isLt
  have hsc := sc.isLt
  have htr := tr.isLt
  have htc := tc.isLt
  intro j hj1 hj2
  rcases hrs with rfl | rfl | rfl <;> rcases hcs with rfl | rfl | rfl <;>
    exact ⟨⟨by omega, by omega, by omega, by omega⟩,
      (getI_eq_of_eq b (by omega) (by omega)).trans (hclear (D - j) (by omega) (by omega))⟩

lemma slider_attack_ray (b : Board) (sr sc tr tc : Fin 8) (k1 k2 : Nat) (rs cs : Int) (D : Nat)
    (hrs : rs = -1 ∨ rs = 0 ∨ rs = 1) (hcs : cs = -1 ∨ cs = 0 ∨ cs = 1)
    (hrd : ((tr : Nat) : Int) - ((sr : Nat) : Int) = rs * D)
    (hcd : ((tc : Nat) : Int) - ((sc : Nat) : Int) = cs * D)
    (hD1 : 1 ≤ D) (hD7 : D ≤ 7)
    (hclear : ∀ i : Nat, 1 ≤ i → i < D →
      getI b (((sr : Nat) : Int) + rs * (i : Int)) (((sc : Nat) : Int) + cs * (i : Int)) = 0)
    (hne : b sr sc ≠ 0)
    (hcolty : (b sr sc &&& typeMask) = k1 ∨ (b sr sc &&& typeMask) = k2) :
    rayScanAux b (b sr sc &&& colorMask) k1 k2 ((tr : Nat) : Int) ((tc : Nat) : Int)
      (-rs) (-cs) 1 7 = true := by
  have e1 : ((tr : Nat) : Int) + (-rs) * (D : Int) = ((sr : Nat) : Int) :=
    endpoint_retarget sr tr rs D hrs hrd
  have e2 : ((tc : Nat) : Int) + (-cs) * (D : Int) = ((sc : Nat) : Int) :=
    endpoint_retarget sc tc cs D hcs hcd
  have hmid := clear_retarget b sr sc tr tc rs cs D hrs hcs hrd hcd hclear
  have hget : getI b (((tr : Nat) : Int) + (-rs) * (D : Int))
      (((tc : Nat) : Int) + (-cs) * (D : Int)) = b sr sc :=
    (getI_eq_of_eq b e1 e2).trans (getI_fin b sr sc)
  apply rayScanAux_hit b (b sr sc &&& colorMask) k1 k2 _ _ _ _ D 7 1 le_rfl hD1
    (by omega) hmid ?_ ?_ ?_ ?_
  · rw [e1, e2]
    exact inRange_fin sr sc
  · rw [hget]
    exact hne
  · rw [hget]
  · rw [hget]
    exact hcolty

lemma sgn_vals (x : Int) : sgn x = -1 ∨ sgn x = 0 ∨ sgn x = 1 := by
  unfold sgn
  split_ifs <;> simp

lemma sgn_pm_of_ne {x : Int} (h : x ≠ 0) : sgn x = -1 ∨ sgn x = 1 := by
  unfold sgn
  split_ifs with a1 a2
  · exact absurd a1 h
  · exact Or.inr rfl
  · exact Or.inl rfl

lemma shape_mul (rd cd : Int) (h : rd = 0 ∨ cd = 0 ∨ rd.natAbs = cd.natAbs) :
    rd = sgn rd * ((max rd.natAbs cd.natAbs : Nat) : Int)
  ∧ cd = sgn cd * ((max rd.natAbs cd.natAbs : Nat) : Int) := by
  rcases Nat.le_total rd.natAbs cd.natAbs with hm | hm
  · rw [Nat.max_eq_right hm]
    unfold sgn
    split_ifs <;> omega
  · rw [Nat.max_eq_left hm]
    unfold sgn
    split_ifs <;> omega

lemma mem_straight_of_shape (sr sc tr tc : Fin 8)
    (hshape : (sr : Nat) = (tr : Nat) ∨ (sc : Nat) = (tc : Nat))
    (hnsd : ¬((sr : Nat) = (tr : Nat) ∧ (sc : Nat) = (tc : Nat))) :
    (-(sgn (diffI sr tr)), -(sgn (diffI sc tc))) ∈ straightDirs := by
  rcases hshape with h | h
  · have h0 : diffI sr tr = 0 := by unfold diffI; omega
    have hc0 : diffI sc tc ≠ 0 := by unfold diffI; omega
    rw [h0]
    rcases sgn_pm_of_ne hc0 with h1 | h1 <;> rw [h1] <;> decide
  · have h0 : diffI sc tc = 0 := by unfold diffI; omega
    have hc0 : diffI sr tr ≠ 0 := by unfold diffI; omega
    rw [h0]
    rcases sgn_pm_of_ne hc0 with h1 | h1 <;> rw [h1] <;> decide

lemma mem_diag_of_shape (sr sc tr tc : Fin 8)
    (hshape : (diffI sr tr).natAbs = (diffI sc tc).natAbs)
    (hnsd : ¬((sr : Nat) = (tr : Nat) ∧ (sc : Nat) = (tc : Nat))) :
    (-(sgn (diffI sr tr)), -(sgn (diffI sc tc))) ∈ diagDirs := by
  have h1 : diffI sr tr ≠ 0 := by unfold diffI at *; omega
  have h2 : diffI sc tc ≠ 0 := by unfold diffI at *; omega
  rcases sgn_pm_of_ne h1 with h3 | h3 <;> rcases sgn_pm_of_ne h2 with h4 | h4 <;>
    rw [h3, h4] <;> decide

lemma pawnAttack_of (b : Board) (r c : Int) (a : Nat) (dir dc : Int)
    (hdir : (if (a == Piece.White) then (1 : Int) else -1) = dir)
    (hdc : dc = -1 ∨ dc = 1)
    (h : attackerAt b (r + dir) (c + dc) a Piece.Pawn = true) :
    pawnAttack b r c a = true := by
  unfold pawnAttack
  simp only
  rw [hdir]
  rcases hdc with rfl | rfl
  · exact List.any_eq_true.2 ⟨(dir, -1), by simp, h⟩
  · exact List.any_eq_true.2 ⟨(dir, 1), by simp, h⟩

lemma straight_family_attack (b : Board) (sr sc tr tc : Fin 8)
    (hne : b sr sc ≠ 0)
    (hty : (b sr sc &&& typeMask) = Piece.Rook ∨ (b sr sc &&& typeMask) = Piece.Queen)
    (hshape : (sr : Nat) = (tr : Nat) ∨ (sc : Nat) = (tc : Nat))
    (hnsd : ¬((sr : Nat) = (tr : Nat) ∧ (sc : Nat) = (tc : Nat)))
    (hclear : pathIsClear b sr sc tr tc) :
    isSquareAttacked b ((tr : Nat) : Int) ((tc : Nat) : Int) (b sr sc &&& colorMask) = true := by
  have hd1 : diffI sr tr = ((tr : Nat) : Int) - ((sr : Nat) : Int) := rfl
  have hd2 : diffI sc tc = ((tc : Nat) : Int) - ((sc : Nat) : Int) := rfl
  have hsr := sr.isLt
  have hsc := sc.isLt
  have htr := tr.isLt
  have htc := tc.isLt
  have hsh0 : diffI sr tr = 0 ∨ diffI sc tc = 0
      ∨ (diffI sr tr).natAbs = (diffI sc tc).natAbs := by
    rcases hshape with h | h
    · exact Or.inl (by omega)
    · exact Or.inr (Or.inl (by omega))
  obtain ⟨hm1, hm2⟩ := shape_mul (diffI sr tr) (diffI sc tc) hsh0
  have hD1 : 1 ≤ max (diffI sr tr).natAbs (diffI sc tc).natAbs := by
    rcases Nat.le_total (diffI sr tr).natAbs (diffI sc tc).natAbs with hmm | hmm
    · rw [Nat.max_eq_right hmm]
      omega
    · rw [Nat.max_eq_left hmm]
      omega
  have hD7 : max (diffI sr tr).natAbs (diffI sc tc).natAbs ≤ 7 := by
    rcases Nat.le_total (diffI sr tr).natAbs (diffI sc tc).natAbs with hmm | hmm
    · rw [Nat.max_eq_right hmm]
      omega
    · rw [Nat.max_eq_left hmm]
      omega
  apply isSquareAttacked_of_straight
  unfold straightAttack
  refine List.any_eq_true.2 ⟨(-(sgn (diffI sr tr)), -(sgn (diffI sc tc))),
    mem_straight_of_shape sr sc tr tc hshape hnsd, ?_⟩
  exact slider_attack_ray b sr sc tr tc Piece.Rook Piece.Queen
    (sgn (diffI sr tr)) (sgn (diffI sc tc)) (max (diffI sr tr).natAbs (diffI sc tc).natAbs)
    (sgn_vals _) (sgn_vals _) (by rw [← hd1]; exact hm1) (by rw [← hd2]; exact hm2)
    hD1 hD7 hclear hne hty

lemma diag_family_attack (b : Board) (sr sc tr tc : Fin 8)
    (hne : b sr sc ≠ 0)
    (hty : (b sr sc &&& typeMask) = Piece.Bishop ∨ (b sr sc &&& typeMask) = Piece.Queen)
    (hshape : (diffI sr tr).natAbs = (diffI sc tc).natAbs)
    (hnsd : ¬((sr : Nat) = (tr : Nat) ∧ (sc : Nat) = (tc : Nat)))
    (hclear : pathIsClear b sr sc tr tc) :
    isSquareAttacked b ((tr : Nat) : Int) ((tc : Nat) : Int) (b sr sc &&& colorMask) = true := by
  have hd1 : diffI sr tr = ((tr : Nat) : Int) - ((sr : Nat) : Int) := rfl
  have hd2 : diffI sc tc = ((tc : Nat) : Int) - ((sc : Nat) : Int) := rfl
  have hsr := sr.isLt
  have hsc := sc.isLt
  have htr := tr.isLt
  have htc := tc.isLt
  obtain ⟨hm1, hm2⟩ := shape_mul (diffI sr tr) (diffI sc tc) (Or.inr (Or.inr hshape))
  have hD1 : 1 ≤ max (diffI sr tr).natAbs (diffI sc tc).natAbs := by
    rcases Nat.le_total (diffI sr tr).natAbs (diffI sc tc).natAbs with hmm | hmm
    · rw [Nat.max_eq_right hmm]
      omega
    · rw [Nat.max_eq_left hmm]
      omega
  have hD7 : max (diffI sr tr).natAbs (diffI sc tc).natAbs ≤ 7 := by
    rcases Nat.le_total (diffI sr tr).natAbs (diffI sc tc).natAbs with hmm | hmm
    · rw [Nat.max_eq_right hmm]
      omega
    · rw [Nat.max_eq_left hmm]
      omega
  apply isSquareAttacked_of_diag
  unfold diagAttack
  refine List.any_eq_true.2 ⟨(-(sgn (diffI sr tr)), -(sgn (diffI sc tc))),
    mem_diag_of_shape sr sc tr tc hshape hnsd, ?_⟩
  exact slider_attack_ray b sr sc tr tc Piece.Bishop Piece.Queen
    (sgn (diffI sr tr)) (sgn (diffI sc tc)) (max (diffI sr tr).natAbs (diffI sc tc).natAbs)
    (sgn_vals _) (sgn_vals _) (by rw [← hd1]; exact hm1) (by rw [← hd2]; exact hm2)
    hD1 hD7 hclear hne hty

/-- Core capture-coverage lemma: a geometry-accepted move onto an occupied
square implies the attack oracle reports the destination square as attacked
by the moving piece's color. -/
lemma attack_of_geometry (b : Board) (sr sc tr tc : Fin 8)
    (hwf : WfCell (b sr sc))
    (hg : validateGeometry b sr sc tr tc = true)
    (ht : b tr tc ≠ 0) :
    isSquareAttacked b ((tr : Nat) : Int) ((tc : Nat) : Int) (b sr sc &&& colorMask) = true := by
  have hvg := (validateGeometry_iff b sr sc tr tc).1 hg
  have hne : b sr sc ≠ 0 := hvg.1
  have hkr := hvg.2.2
  have hsd : ¬(sr = tr ∧ sc = tc) := validateGeometry_ne b sr sc tr tc hg
  have hnsd : ¬((sr : Nat) = (tr : Nat) ∧ (sc : Nat) = (tc : Nat)) := by
    rintro ⟨e1, e2⟩
    exact hsd ⟨Fin.ext e1, Fin.ext e2⟩
  have hd1 : diffI sr tr = ((tr : Nat) : Int) - ((sr : Nat) : Int) := rfl
  have hd2 : diffI sc tc = ((tc : Nat) : Int) - ((sc : Nat) : Int) := rfl
  have hsr := sr.isLt
  have hsc := sc.isLt
  have htr := tr.isLt
  have htc := tc.isLt
  rcases hwf with h0 | ⟨ht1, ht6, hcw⟩
  · exact absurd h0 hne
  have htv : b sr sc &&& typeMask = 1 ∨ b sr sc &&& typeMask = 2 ∨ b sr sc &&& typeMask = 3
      ∨ b sr sc &&& typeMask = 4 ∨ b sr sc &&& typeMask = 5
      ∨ b sr sc &&& typeMask = 6 := by omega
  rcases htv with hty | hty | hty | hty | hty | hty
  · -- Pawn: an occupied destination forces the diagonal capture branch
    rw [kindRule_pawn hty] at hkr
    apply isSquareAttacked_of_pawn
    rcases hcw with hcol | hcol
    · obtain ⟨hd, hh⟩ := pawn_white_aux hcol
      rw [pawnRule_iff b sr sc tr tc (-1) 6 hd hh (Or.inl rfl)] at hkr
      rcases hkr with ⟨-, -, h0⟩ | ⟨-, -, -, h0, -⟩ | ⟨ha1, ha2, -⟩
      · exact absurd h0 ht
      · exact absurd h0 ht
      · refine pawnAttack_of b _ _ _ 1 (-(diffI sc tc)) ?_ (by omega) ?_
        · rw [hcol]
          decide
        · have e1 : ((tr : Nat) : Int) + 1 = ((sr : Nat) : Int) := by omega
          have e2 : ((tc : Nat) : Int) + -(diffI sc tc) = ((sc : Nat) : Int) := by
            unfold diffI
            ring
          exact (attackerAt_congr b _ _ e1 e2).trans (attackerAt_of_cell b sr sc _ _ hty rfl)
    · obtain ⟨hd, hh⟩ := pawn_black_aux hcol
      rw [pawnRule_iff b sr sc tr tc 1 1 hd hh (Or.inr rfl)] at hkr
      rcases hkr with ⟨-, -, h0⟩ | ⟨-, -, -, h0, -⟩ | ⟨ha1, ha2, -⟩
      · exact absurd h0 ht
      · exact absurd h0 ht
      · refine pawnAttack_of b _ _ _ (-1) (-(diffI sc tc)) ?_ (by omega) ?_
        · rw [hcol]
          decide
        · have e1 : ((tr : Nat) : Int) + -1 = ((sr : Nat) : Int) := by omega
          have e2 : ((tc : Nat) : Int) + -(diffI sc tc) = ((sc : Nat) : Int) := by
            unfold diffI
            ring
          exact (attackerAt_congr b _ _ e1 e2).trans (attackerAt_of_cell b sr sc _ _ hty rfl)
  · -- Knight
    rw [kindRule_knight hty] at hkr
    simp only [knightRule, decide_eq_true_eq] at hkr
    apply isSquareAttacked_of_knight
    unfold knightAttack
    have hmemb : (-(diffI sr tr), -(diffI sc tc)) ∈ knightOffsets := by
      have h4 : (diffI sr tr = 2 ∨ diffI sr tr = -2) ∧ (diffI sc tc = 1 ∨ diffI sc tc = -1)
          ∨ (diffI sr tr = 1 ∨ diffI sr tr = -1)
            ∧ (diffI sc tc = 2 ∨ diffI sc tc = -2) := by omega
      rcases h4 with ⟨h5 | h5, h6 | h6⟩ | ⟨h5 | h5, h6 | h6⟩ <;> rw [h5, h6] <;> decide
    refine List.any_eq_true.2 ⟨_, hmemb, ?_⟩
    have e1 : ((tr : Nat) : Int) + -(diffI sr tr) = ((sr : Nat) : Int) := by
      unfold diffI
      ring
    have e2 : ((tc : Nat) : Int) + -(diffI sc tc) = ((sc : Nat) : Int) := by
      unfold diffI
      ring
    exact (attackerAt_congr b _ _ e1 e2).trans (attackerAt_of_cell b sr sc _ _ hty rfl)
  · -- Bishop
    rw [kindRule_slider (Or.inr (Or.inl hty))] at hkr
    obtain ⟨-, hdg, -, hclear⟩ := sliderRule_elim hkr
    exact diag_family_attack b sr sc tr tc hne (Or.inl hty) (hdg hty) hnsd hclear
  · -- Rook
    rw [kindRule_slider (Or.inl hty)] at hkr
    obtain ⟨hst, -, -, hclear⟩ := sliderRule_elim hkr
    exact straight_family_attack b sr sc tr tc hne (Or.inl hty) (hst hty) hnsd hclear
  · -- Queen
    rw [kindRule_slider (Or.inr (Or.inr hty))] at hkr
    obtain ⟨-, -, hq, hclear⟩ := sliderRule_elim hkr
    rcases hq hty with hshape | hshape
    · exact straight_family_attack b sr sc tr tc hne (Or.inr hty) hshape hnsd hclear
    · exact diag_family_attack b sr sc tr tc hne (Or.inr hty) hshape hnsd hclear
  · -- King
    rw [kindRule_king hty] at hkr
    simp only [kingRule, decide_eq_true_eq] at hkr
    apply isSquareAttacked_of_king
    unfold kingAttack
    have hmemb : (-(diffI sr tr), -(diffI sc tc)) ∈ kingOffsets := by
      have h4 : diffI sr tr = -1 ∨ diffI sr tr = 0 ∨ diffI sr tr = 1 := by omega
      have h5 : diffI sc tc = -1 ∨ diffI sc tc = 0 ∨ diffI sc tc = 1 := by omega
      rcases h4 with h6 | h6 | h6 <;> rcases h5 with h7 | h7 | h7 <;> rw [h6, h7] <;>
        first
        | decide
        | omega
    refine List.any_eq_true.2 ⟨_, hmemb, ?_⟩
    have e1 : ((tr : Nat) : Int) + -(diffI sr tr) = ((sr : Nat) : Int) := by
      unfold diffI
      ring
    have e2 : ((tc : Nat) : Int) + -(diffI sc tc) = ((sc : Nat) : Int) := by
      unfold diffI
      ring
    exact (attackerAt_congr b _ _ e1 e2).trans (attackerAt_of_cell b sr sc _ _ hty rfl)

lemma safe_geometry {b : Board} {sr sc tr tc : Fin 8}
    (hsafe : isSafeMove b sr sc tr tc = true) :
    validateGeometry b sr sc tr tc = true := by
  by_contra hng
  have hvf : validateGeometry b sr sc tr tc = false := by
    cases hvv : validateGeometry b sr sc tr tc
    · rfl
    · exact absurd hvv hng
  simp [isSafeMove, isSafeMoveSt, hvf] at hsafe

lemma checkColor_turn {w : Bool} {p : Nat} (h : checkColor w p = true)
    (hwf : p &&& colorMask = Piece.White ∨ p &&& colorMask = Piece.Black) :
    p &&& colorMask = turnColor w := by
  cases w
  · simp [checkColor] at h
    rcases hwf with h1 | h1
    · exact absurd h1 h
    · have e1 : turnColor false = Piece.Black := rfl
      rw [e1]
      exact h1
  · simp [checkColor] at h
    have e1 : turnColor true = Piece.White := rfl
    rw [e1]
    exact h

lemma no_king_capture (b : Board) (w : Bool) (sr sc tr tc : Fin 8)
    (hinv : EngineInv b w)
    (hcc : checkColor w (b sr sc) = true)
    (hsafe : isSafeMove b sr sc tr tc = true) :
    (b tr tc &&& typeMask) ≠ Piece.King := by
  obtain ⟨hwf, -, -, hnotatt⟩ := hinv
  have hg := safe_geometry hsafe
  intro hk6
  have hvg := (validateGeometry_iff b sr sc tr tc).1 hg
  have hne : b sr sc ≠ 0 := hvg.1
  have hff := hvg.2.1
  have ht0 : b tr tc ≠ 0 := by
    intro h0
    rw [h0] at hk6
    simp [typeMask, Piece.King] at hk6
  have hsw : (b sr sc &&& colorMask) = Piece.White ∨ (b sr sc &&& colorMask) = Piece.Black := by
    rcases hwf sr sc with h0 | hc
    · exact absurd h0 hne
    · exact hc.2.2
  have hcol : (b sr sc &&& colorMask) = turnColor w := checkColor_turn hcc hsw
  have htw : (b tr tc &&& colorMask) = Piece.White ∨ (b tr tc &&& colorMask) = Piece.Black := by
    rcases hwf tr tc with h0 | hc
    · exact absurd h0 ht0
    · exact hc.2.2
  have htne : (b tr tc &&& colorMask) ≠ (b sr sc &&& colorMask) := by
    intro he
    exact hff ⟨ht0, he.symm⟩
  have htcol : (b tr tc &&& colorMask) = notTurnColor w := by
    cases w
    · have e1 : turnColor false = Piece.Black := rfl
      have e2 : notTurnColor false = Piece.White := rfl
      rw [e1] at hcol
      rw [e2]
      rcases htw with h | h
      · exact h
      · rw [hcol] at htne
        exact absurd h htne
    · have e1 : turnColor true = Piece.White := rfl
      have e2 : notTurnColor true = Piece.Black := rfl
      rw [e1] at hcol
      rw [e2]
      rcases htw with h | h
      · rw [hcol] at htne
        exact absurd h htne
      · exact h
  have hatt := attack_of_geometry b sr sc tr tc (hwf sr sc) hg ht0
  rw [hcol] at hatt
  have hnot := hnotatt tr tc ⟨hk6, htcol⟩
  rw [hnot] at hatt
  simp at hatt

lemma findKing_of_unique (b : Board) (X : Nat) (kr kc : Fin 8)
    (hk : isKingCell b X kr kc)
    (hu : ∀ i j : Fin 8, isKingCell b X i j → i = kr ∧ j = kc) :
    findKing b X = (((kr : Nat) : Int), ((kc : Nat) : Int)) := by
  have hfind : allSquares.find? (kingPred b X) = some (kr, kc) := by
    apply find?_unique (mem_allSquares _) ?_ ?_
    · rw [kingPred_iff]
      exact hk
    · rintro ⟨i, j⟩ - hx
      rw [kingPred_iff] at hx
      obtain ⟨e1, e2⟩ := hu i j hx
      rw [e1, e2]
  rw [findKing, hfind]

lemma uniqueKing_commit (b : Board) (sr sc tr tc : Fin 8) (X : Nat)
    (hg : validateGeometry b sr sc tr tc = true)
    (htnk : (b tr tc &&& typeMask) ≠ Piece.King)
    (huk : uniqueKing b X) :
    uniqueKing (commitMove b sr sc tr tc) X := by
  obtain ⟨kr, kc, hk, hu⟩ := huk
  have hsd := validateGeometry_ne b sr sc tr tc hg
  have hdne : ¬(tr = sr ∧ tc = sc) := fun he => hsd ⟨he.1.symm, he.2.symm⟩
  by_cases hmv : kr = sr ∧ kc = sc
  · rw [hmv.1, hmv.2] at hk
    refine ⟨tr, tc, ?_, ?_⟩
    · have e : commitMove b sr sc tr tc tr tc = b sr sc := commitMove_dst b sr sc tr tc hdne
      exact ⟨by rw [e]; exact hk.1, by rw [e]; exact hk.2⟩
    · intro i j hij
      unfold isKingCell at hij
      by_cases h1 : i = sr ∧ j = sc
      · exfalso
        have e0 : commitMove b sr sc tr tc i j = 0 := by
          rw [h1.1, h1.2]
          exact commitMove_src b sr sc tr tc
        rw [e0] at hij
        simp [typeMask, Piece.King] at hij
      · by_cases h2 : i = tr ∧ j = tc
        · exact ⟨h2.1, h2.2⟩
        · have e0 : commitMove b sr sc tr tc i j = b i j :=
            commitMove_other b sr sc tr tc h1 h2
          rw [e0] at hij
          obtain ⟨e1, e2⟩ := hu i j hij
          exact absurd ⟨e1.trans hmv.1, e2.trans hmv.2⟩ h1
  · have hkd : ¬(kr = tr ∧ kc = tc) := by
      rintro ⟨e1, e2⟩
      apply htnk
      rw [← e1, ← e2]
      exact hk.1
    have e : commitMove b sr sc tr tc kr kc = b kr kc :=
      commitMove_other b sr sc tr tc hmv hkd
    refine ⟨kr, kc, ⟨by rw [e]; exact hk.1, by rw [e]; exact hk.2⟩, ?_⟩
    intro i j hij
    unfold isKingCell at hij
    by_cases h1 : i = sr ∧ j = sc
    · exfalso
      have e0 : commitMove b sr sc tr tc i j = 0 := by
        rw [h1.1, h1.2]
        exact commitMove_src b sr sc tr tc
      rw [e0] at hij
      simp [typeMask, Piece.King] at hij
    · by_cases h2 : i = tr ∧ j = tc
      · exfalso
        have e0 : commitMove b sr sc tr tc i j = b sr sc := by
          rw [h2.1, h2.2]
          exact commitMove_dst b sr sc tr tc hdne
        rw [e0] at hij
        obtain ⟨e1, e2⟩ := hu sr sc hij
        exact hmv ⟨e1.symm, e2.symm⟩
      · have e0 := commitMove_other b sr sc tr tc h1 h2
        rw [e0] at hij
        exact hu i j hij

lemma inv_init : EngineInv initBoard true := by decide

lemma inv_step (b : Board) (w : Bool) (sr sc tr tc : Fin 8)
    (hinv : EngineInv b w)
    (hcc : checkColor w (b sr sc) = true)
    (hsafe : isSafeMove b sr sc tr tc = true) :
    EngineInv (commitMove b sr sc tr tc) (!w) := by
  have htnk := no_king_capture b w sr sc tr tc hinv hcc hsafe
  obtain ⟨hwf, hukW, hukB, hnotatt⟩ := hinv
  have hg := safe_geometry hsafe
  have hsd := validateGeometry_ne b sr sc tr tc hg
  have hne : b sr sc ≠ 0 := ((validateGeometry_iff b sr sc tr tc).1 hg).1
  have hwf' : WfBoard (commitMove b sr sc tr tc) := by
    intro i j
    by_cases h1 : i = sr ∧ j = sc
    · have e : commitMove b sr sc tr tc i j = 0 := by
        rw [h1.1, h1.2]
        exact commitMove_src b sr sc tr tc
      rw [WfCell, e]
      exact Or.inl rfl
    · by_cases h2 : i = tr ∧ j = tc
      · have e : commitMove b sr sc tr tc i j = b sr sc := by
          rw [h2.1, h2.2]
          exact commitMove_dst b sr sc tr tc (fun he => hsd ⟨he.1.symm, he.2.symm⟩)
        rw [WfCell, e]
        exact hwf sr sc
      · rw [WfCell, commitMove_other b sr sc tr tc h1 h2]
        exact hwf i j
  have hukW' := uniqueKing_commit b sr sc tr tc Piece.White hg htnk hukW
  have hukB' := uniqueKing_commit b sr sc tr tc Piece.Black hg htnk hukB
  have hsw : (b sr sc &&& colorMask) = Piece.White ∨ (b sr sc &&& colorMask) = Piece.Black := by
    rcases hwf sr sc with h0 | hc
    · exact absurd h0 hne
    · exact hc.2.2
  have hcol : (b sr sc &&& colorMask) = turnColor w := checkColor_turn hcc hsw
  have hukMy : uniqueKing (commitMove b sr sc tr tc) (turnColor w) := by
    cases w
    · exact hukB'
    · exact hukW'
  obtain ⟨kr', kc', hk', hu'⟩ := hukMy
  have hfk := findKing_of_unique (commitMove b sr sc tr tc) (turnColor w) kr' kc' hk' hu'
  have hnot : isSquareAttacked (commitMove b sr sc tr tc)
      ((kr' : Nat) : Int) ((kc' : Nat) : Int) (enemyOf (turnColor w)) = false := by
    simp only [isSafeMove, isSafeMoveSt, hg] at hsafe
    simp at hsafe
    rw [hcol] at hsafe
    rw [hfk] at hsafe
    exact hsafe
  refine ⟨hwf', hukW', hukB', ?_⟩
  intro i j hij
  have en : notTurnColor (!w) = turnColor w := by cases w <;> rfl
  rw [en] at hij
  obtain ⟨e1, e2⟩ := hu' i j hij
  rw [e1, e2]
  have et : turnColor (!w) = enemyOf (turnColor w) := by cases w <;> rfl
  rw [et]
  exact hnot

/-- C10: every board reachable from the starting position through moves that
pass the ownership gate and `isSafeMove` and are then committed holds exactly
one White King and exactly one Black King; no accepted move ever captures a
King, and the `findKing` lookup never falls back to its `(-1, -1)` sentinel
in a reachable state. -/
theorem reachable_kings_invariant : ∀ (b : Board) (w : Bool), Reachable b w →
    uniqueKing b Piece.White ∧ uniqueKing b Piece.Black
  ∧ (∀ sr sc tr tc : Fin 8, checkColor w (b sr sc) = true →
      isSafeMove b sr sc tr tc = true → (b tr tc &&& typeMask) ≠ Piece.King)
  ∧ findKing b Piece.White ≠ (-1, -1) ∧ findKing b Piece.Black ≠ (-1, -1) := by
  intro b w hr
  have hinv : EngineInv b w := by
    induction hr with
    | init => exact inv_init
    | step sr sc tr tc hr hcc hsafe ih => exact inv_step _ _ sr sc tr tc ih hcc hsafe
  obtain ⟨hwf, hW, hB, h4⟩ := hinv
  refine ⟨hW, hB, ?_, ?_, ?_⟩
  · intro sr sc tr tc hcc hsafe
    exact no_king_capture b w sr sc tr tc ⟨hwf, hW, hB, h4⟩ hcc hsafe
  · obtain ⟨kr, kc, hk, hu⟩ := hW
    rw [findKing_of_unique b Piece.White kr kc hk hu]
    intro hcontra
    rw [Prod.mk.injEq] at hcontra
    omega
  · obtain ⟨kr, kc, hk, hu⟩ := hB
    rw [findKing_of_unique b Piece.Black kr kc hk hu]
    intro hcontra
    rw [Prod.mk.injEq] at hcontra
    omega

/-- Witness for C10 at the starting position itself. -/
theorem reachable_kings_invariant_witness :
    Reachable initBoard true
  ∧ (uniqueKing initBoard Piece.White ∧ uniqueKing initBoard Piece.Black
    ∧ (∀ sr sc tr tc : Fin 8, checkColor true (initBoard sr sc) = true →
        isSafeMove initBoard sr sc tr tc = true →
        (initBoard tr tc &&& typeMask) ≠ Piece.King)
    ∧ findKing initBoard Piece.White ≠ (-1, -1)
    ∧ findKing initBoard Piece.Black ≠ (-1, -1)) :=
  ⟨Reachable.init, reachable_kings_invariant initBoard true Reachable.init⟩
